import Mathlib

/-!
Verification development for the request policy scheduler
(`python/sglang/srt/managers/policy_scheduler.py`).

The development shallowly embeds the two components of the file:

* `PolicyScheduler.calc_priority` (specifically the `dfs-weight` branch,
  together with `calc_weight` and `get_dfs_priority`), and
* `PrefillAdder` (`no_remaining_tokens`, `_prefill_one_req`,
  `add_inflight_req`, `_lock_req`, `add_one_req`).

External collaborators (the radix tree cache) are represented by the values
they return: `match_prefix_lock` returns a triple
(prefix_indices, last_node, budget_delta), and `inc_lock_ref` /
`dec_lock_ref` each return a budget delta.  `add_one_req` takes those
returned values as explicit arguments and additionally records the sequence
of lock operations it performs as a trace of `LockEvent`s, so that the
lock discipline can be stated and proved.

Machine integers are modelled as `Int` (Python integers are unbounded, so no
wrap-around is involved).  Python's `lst[:k]` slicing, which accepts negative
stop indices counting from the end, is modelled by `pySliceTo`.
-/

/-- Python's `lst[:k]` for an integer `k`: for `k ≥ 0` take the first `k`
elements; for `k < 0` the stop index counts from the end of the list
(`lst[:k] = lst[:max(0, len(lst)+k)]`). -/
def pySliceTo {α : Type} (l : List α) (k : Int) : List α :=
  if 0 ≤ k then l.take k.toNat
  else l.take ((l.length : Int) + k).toNat

/-- The `sampling_params` of a request; only `max_new_tokens` is read by the
scheduler. -/
structure SamplingParams where
  max_new_tokens : Nat
deriving DecidableEq, Repr

/-- A request (`Req` in `schedule_batch.py`), restricted to the fields the
policy scheduler reads or writes.  `normalized_prompt_logprob` is `None`
until computed; its payload is irrelevant here and modelled as `Int`. -/
structure Req where
  rid : Nat
  origin_input_ids : List Nat
  output_ids : List Nat
  fill_ids : List Nat
  prefix_indices : List Nat
  last_node : Nat
  extend_input_len : Int
  sampling_params : SamplingParams
  return_logprob : Bool
  normalized_prompt_logprob : Option Int
deriving DecidableEq, Repr

/-- The mutable state of a `PrefillAdder`. -/
structure PrefillAdder where
  rem_total_tokens : Int
  rem_input_tokens : Int
  rem_chunk_tokens : Option Int
  can_run_list : List Req
  new_inflight_req : Option Req
  log_hit_tokens : Int
  log_input_tokens : Int
deriving DecidableEq, Repr

/-- Constructor `PrefillAdder.__init__`: subtract `mixed_with_decode_tokens` from the
total and input budgets, and from the chunk budget when one is configured. -/
def PrefillAdder.init (rem_total_tokens rem_input_tokens : Int)
    (rem_chunk_tokens : Option Int) (mixed_with_decode_tokens : Int) :
    PrefillAdder :=
  { rem_total_tokens := rem_total_tokens - mixed_with_decode_tokens
    rem_input_tokens := rem_input_tokens - mixed_with_decode_tokens
    rem_chunk_tokens := rem_chunk_tokens.map (· - mixed_with_decode_tokens)
    can_run_list := []
    new_inflight_req := none
    log_hit_tokens := 0
    log_input_tokens := 0 }

/-- Method `PrefillAdder.no_remaining_tokens`:
`rem_total_tokens <= 0 or rem_input_tokens <= 0 or
 (rem_chunk_tokens <= 0 if rem_chunk_tokens is not None else False)`. -/
def PrefillAdder.no_remaining_tokens (a : PrefillAdder) : Bool :=
  a.rem_total_tokens ≤ 0 || a.rem_input_tokens ≤ 0 ||
    (match a.rem_chunk_tokens with
     | some c => c ≤ 0
     | none => false)

/-- Method `PrefillAdder._prefill_one_req(prefix_len, extend_input_len,
max_new_tokens)`: debit the three budget counters and bump the log
counters. -/
def PrefillAdder.prefill_one_req (a : PrefillAdder) (prefix_len : Nat)
    (extend_input_len max_new_tokens : Int) : PrefillAdder :=
  { a with
    rem_total_tokens := a.rem_total_tokens - (extend_input_len + max_new_tokens)
    rem_input_tokens := a.rem_input_tokens - extend_input_len
    rem_chunk_tokens := a.rem_chunk_tokens.map (· - extend_input_len)
    log_hit_tokens := a.log_hit_tokens + prefix_len
    log_input_tokens := a.log_input_tokens + extend_input_len }

/-- Method `PrefillAdder.add_inflight_req(req)`.  The first comparison
`req.extend_input_len > self.rem_chunk_tokens` raises a `TypeError` in
Python when `rem_chunk_tokens` is `None`; this failure, which happens
before any state is mutated, is modelled by returning `none`.  On success
the result is the updated adder, the updated request as stored in
`can_run_list`, and the return value of the Python call (the request if this
chunk is still truncated, nothing if it completed). -/
def PrefillAdder.add_inflight_req (clip : Nat) (a : PrefillAdder) (req : Req) :
    Option (PrefillAdder × Req × Option Req) :=
  match a.rem_chunk_tokens with
  | none => none
  | some c =>
    -- truncated = req.extend_input_len > self.rem_chunk_tokens
    let req1 : Req := { req with extend_input_len := min req.extend_input_len c }
    let req2 : Req := { req1 with
      fill_ids := pySliceTo req1.fill_ids
        ((req1.prefix_indices.length : Int) + req1.extend_input_len) }
    let a1 : PrefillAdder := { a with can_run_list := a.can_run_list ++ [req2] }
    let a2 : PrefillAdder := a1.prefill_one_req req2.prefix_indices.length
      req2.extend_input_len
      (if c < req.extend_input_len then 0
       else ((min req.sampling_params.max_new_tokens clip : Nat) : Int))
    some (a2, req2, if c < req.extend_input_len then some req2 else none)

/-- One lock operation performed on the tree cache during admission.
`matchLock` is the temporary lock taken by `match_prefix_lock` when entering
`_lock_req`; `incLock` is the permanent `inc_lock_ref` transfer to an
admitted request; `decLock` is the `dec_lock_ref` in the `finally` block of
`_lock_req`. -/
inductive LockEvent where
  | matchLock (node : Nat)
  | incLock (node : Nat)
  | decLock (node : Nat)
deriving DecidableEq, Repr

/-- Whether an event is the temporary match-and-lock acquisition. -/
def LockEvent.isMatchLock : LockEvent → Bool
  | .matchLock _ => true
  | _ => false

/-- Whether an event is a `dec_lock_ref` release. -/
def LockEvent.isDecLock : LockEvent → Bool
  | .decLock _ => true
  | _ => false

/-- Result of one `add_one_req` call: the boolean return value, the adder
state, the (mutated) request, and the trace of lock operations performed. -/
structure AddOneReqResult where
  admitted : Bool
  adder : PrefillAdder
  req : Req
  events : List LockEvent
deriving DecidableEq, Repr

/-- The `finally` block of `_lock_req`: on every exit path apply the
`dec_lock_ref` delta to `rem_total_tokens` and release the temporary lock on
the matched node.  The full trace of the call is
`[matchLock lnode] ++ evs ++ [decLock lnode]`. -/
def lock_req_exit (ok : Bool) (a : PrefillAdder) (req : Req)
    (evs : List LockEvent) (lnode : Nat) (dec_delta : Int) : AddOneReqResult :=
  { admitted := ok
    adder := { a with rem_total_tokens := a.rem_total_tokens + dec_delta }
    req := req
    events := LockEvent.matchLock lnode :: (evs ++ [LockEvent.decLock lnode]) }

/-- Method `PrefillAdder.add_one_req(req)` wrapped in `_lock_req`.

The external cache calls are represented by their returned values:
`mres = (prefix_indices, last_node, delta)` is the triple returned by
`tree_cache.match_prefix_lock`, `inc_delta` is the value returned by the
`tree_cache.inc_lock_ref` call on the admission paths (the code discards
it), and `dec_delta` is the value returned by `tree_cache.dec_lock_ref` in
the `finally` block of `_lock_req`. -/
def add_one_req (clip : Nat) (a : PrefillAdder) (req : Req)
    (mres : List Nat × Nat × Int) (inc_delta dec_delta : Int) : AddOneReqResult :=
  -- _lock_req entry: req.fill_ids = req.origin_input_ids + req.output_ids;
  -- re-match and lock; recompute extend_input_len; apply the match delta.
  let fids := req.origin_input_ids ++ req.output_ids
  let pidx := mres.1
  let lnode := mres.2.1
  let req1 : Req := { req with
    fill_ids := fids
    prefix_indices := pidx
    last_node := lnode
    extend_input_len := (fids.length : Int) - (pidx.length : Int) }
  let a1 : PrefillAdder := { a with rem_total_tokens := a.rem_total_tokens + mres.2.2 }
  let total_tokens : Int :=
    req1.extend_input_len + ((min req1.sampling_params.max_new_tokens clip : Nat) : Int)
  let input_tokens : Int := req1.extend_input_len
  let prefix_len : Nat := pidx.length
  -- Non-chunked admission path (shared by the three guards of the first
  -- branch): append, permanently inc_lock_ref (delta discarded), debit.
  let nonchunked : AddOneReqResult :=
    let a2 : PrefillAdder := { a1 with can_run_list := a1.can_run_list ++ [req1] }
    let a3 : PrefillAdder := a2.prefill_one_req prefix_len input_tokens
      ((min req1.sampling_params.max_new_tokens clip : Nat) : Int)
    lock_req_exit true a3 req1 [LockEvent.incLock lnode] lnode dec_delta
  if a1.rem_total_tokens ≤ total_tokens then
    -- total_tokens >= self.rem_total_tokens
    lock_req_exit false a1 req1 [] lnode dec_delta
  else if a1.rem_input_tokens < input_tokens ∧ a1.can_run_list.length ≠ 0 then
    -- input_tokens > self.rem_input_tokens and len(self.can_run_list) != 0
    lock_req_exit false a1 req1 [] lnode dec_delta
  else
    match a1.rem_chunk_tokens with
    | none => nonchunked
    | some c =>
      if input_tokens ≤ c ∨
          (req1.return_logprob ∧ req1.normalized_prompt_logprob = none) then
        nonchunked
      else
        -- Chunked prefill
        let trunc_len : Int := c
        if trunc_len = 0 then
          lock_req_exit false a1 req1 [] lnode dec_delta
        else
          let req2 : Req := { req1 with
            extend_input_len := trunc_len
            fill_ids := pySliceTo req1.fill_ids ((prefix_len : Int) + trunc_len) }
          let a2 : PrefillAdder := { a1 with
            can_run_list := a1.can_run_list ++ [req2]
            new_inflight_req := some req2 }
          let a3 : PrefillAdder := a2.prefill_one_req prefix_len trunc_len 0
          lock_req_exit true a3 req2 [LockEvent.incLock lnode] lnode dec_delta

/-- Run a sequence of `add_one_req` calls, each with its own cache-returned
values, threading the adder state and concatenating the lock traces. -/
def run_add_reqs (clip : Nat) (a : PrefillAdder) :
    List (Req × (List Nat × Nat × Int) × Int × Int) → PrefillAdder × List LockEvent
  | [] => (a, [])
  | (r, m, i, d) :: rest =>
    let out := add_one_req clip a r m i d
    let res := run_add_reqs clip out.adder rest
    (res.1, out.events ++ res.2)

/-!
## The prefix tree and the dfs-weight policy

`TreeNode` models the radix-cache tree reachable from
`tree_cache.root_node`: each node has a children mapping (only the list of
values matters here, in dict insertion order) and an identity.  Python keys
its `defaultdict`s by object identity; object identities are modelled by the
`nid` field, so trees whose node ids are pairwise distinct correspond
exactly to the object graphs the code operates on.
-/

inductive TreeNode where
  | mk (nid : Nat) (children : List TreeNode)
deriving Repr

/-- The identity of a node. -/
def TreeNode.nid : TreeNode → Nat
  | .mk i _ => i

/-- The children list `cur_node.children.values()`. -/
def TreeNode.children : TreeNode → List TreeNode
  | .mk _ cs => cs

mutual
/-- All node identities in a tree. -/
def TreeNode.allIds : TreeNode → List Nat
  | .mk i cs => i :: TreeNode.allIdsList cs

/-- All node identities in a forest. -/
def TreeNode.allIdsList : List TreeNode → List Nat
  | [] => []
  | c :: cs => c.allIds ++ TreeNode.allIdsList cs
end

mutual
/-- All subtrees of a tree (the tree itself included). -/
def TreeNode.subtreesOf : TreeNode → List TreeNode
  | .mk i cs => .mk i cs :: TreeNode.subtreesOfList cs

/-- All subtrees of the trees of a forest. -/
def TreeNode.subtreesOfList : List TreeNode → List TreeNode
  | [] => []
  | c :: cs => c.subtreesOf ++ TreeNode.subtreesOfList cs
end

/-- Point update of a weight map, modelling `node_to_weight[i] = v`. -/
def updW (w : Nat → Nat) (i v : Nat) : Nat → Nat :=
  fun j => if j = i then v else w j

mutual
/-- Method `PolicyScheduler.calc_weight(cur_node, node_to_weight)`: for every child,
recurse and then add the child's accumulated weight to the current node's
entry.  The mutated `node_to_weight` dict is modelled as a map `Nat → Nat`
threaded through the recursion. -/
def calc_weight (t : TreeNode) (w : Nat → Nat) : Nat → Nat :=
  match t with
  | .mk i cs => calc_weight_children i cs w

/-- The `for child in cur_node.children.values()` loop of `calc_weight`. -/
def calc_weight_children (i : Nat) (cs : List TreeNode) (w : Nat → Nat) : Nat → Nat :=
  match cs with
  | [] => w
  | c :: rest =>
    let w1 := calc_weight c w
    calc_weight_children i rest (updW w1 i (w1 i + w1 c.nid))
end

mutual
/-- The weight of a node as the spec describes it: the number of requests
matched directly at the node plus the recursively summed weights of its
children.  `w` gives the direct count at each node id. -/
def weightOf (w : Nat → Nat) : TreeNode → Nat
  | .mk i cs => w i + weightOfList w cs

/-- Sum of `weightOf` over a forest. -/
def weightOfList (w : Nat → Nat) : List TreeNode → Nat
  | [] => 0
  | c :: cs => weightOf w c + weightOfList w cs
end

/-- Stable insertion into a list sorted by non-increasing `w`-key: `x` is
placed before the first element whose key is not larger than `x`'s.  Earlier
elements keep their place on ties, so `sortDescBy` computes exactly the
ordering of Python's stable `list.sort(key=lambda x: -w[x])`. -/
def insertDescBy (w : Nat → Nat) (x : TreeNode) : List TreeNode → List TreeNode
  | [] => [x]
  | y :: ys => if w y.nid ≤ w x.nid then x :: y :: ys else y :: insertDescBy w x ys

/-- Stable sort by non-increasing `w`-key, modelling
`childs.sort(key=lambda x: -node_to_priority[x])`. -/
def sortDescBy (w : Nat → Nat) : List TreeNode → List TreeNode
  | [] => []
  | x :: xs => insertDescBy w x (sortDescBy w xs)

mutual
/-- Method `PolicyScheduler.get_dfs_priority(cur_node, node_to_priority,
last_node_to_reqs, q)`: visit children in descending weight order, then
append the requests matched directly at the current node. -/
def get_dfs_priority (t : TreeNode) (w : Nat → Nat) (reqsOf : Nat → List Req)
    (q : List Req) : List Req :=
  match t with
  | .mk i cs =>
    get_dfs_children (sortDescBy w cs) w reqsOf q ++ reqsOf i
termination_by sizeOf t
decreasing_by
  have hins : ∀ (x : TreeNode) (l : List TreeNode),
      sizeOf (insertDescBy w x l) = sizeOf (x :: l) := by
    intro x l
    induction l with
    | nil => simp [insertDescBy]
    | cons y ys ih =>
      simp only [insertDescBy]
      split
      · rfl
      · simp only [List.cons.sizeOf_spec] at ih ⊢
        omega
  have hsort : ∀ (l : List TreeNode), sizeOf (sortDescBy w l) = sizeOf l := by
    intro l
    induction l with
    | nil => rfl
    | cons x xs ih =>
      simp only [sortDescBy, hins, List.cons.sizeOf_spec] at ih ⊢
      omega
  rw [hsort]
  simp

/-- The `for child in childs` loop of `get_dfs_priority`. -/
def get_dfs_children (cs : List TreeNode) (w : Nat → Nat) (reqsOf : Nat → List Req)
    (q : List Req) : List Req :=
  match cs with
  | [] => q
  | c :: rest => get_dfs_children rest w reqsOf (get_dfs_priority c w reqsOf q)
termination_by sizeOf cs
decreasing_by
  all_goals simp
  all_goals omega
end

/-- The grouping `last_node_to_reqs[i]`: the requests of the waiting queue whose last
node is `i`, in queue order (Python groups by appending in queue order, and
`defaultdict` yields `[]` for nodes with no request). -/
def reqs_matched_at (queue : List Req) (i : Nat) : List Req :=
  queue.filter (fun r => r.last_node = i)

/-- The initial `node_to_weight`: `len(last_node_to_reqs[node])` for every
node (and the `defaultdict` default `0` for nodes with no request). -/
def initial_weight (queue : List Req) : Nat → Nat :=
  fun i => (reqs_matched_at queue i).length

/-- The `dfs-weight` branch of `PolicyScheduler.calc_priority`: group the
queue by `last_node`, seed `node_to_weight` with the group sizes, run
`calc_weight` from the root, clear the queue and emit it again with
`get_dfs_priority`. -/
def dfs_weight_order (root : TreeNode) (queue : List Req) : List Req :=
  get_dfs_priority root (calc_weight root (initial_weight queue))
    (reqs_matched_at queue) []

/-- A concrete cache tree used by example witnesses: a root with two
children, one of which has one child of its own. -/
def exTree : TreeNode := .mk 0 [.mk 1 [], .mk 2 [.mk 3 []]]

/-- A concrete request matched at node `n`, used by example witnesses. -/
def exReq (n : Nat) : Req :=
  { rid := n, origin_input_ids := [n], output_ids := [], fill_ids := [n],
    prefix_indices := [], last_node := n, extend_input_len := 1,
    sampling_params := { max_new_tokens := 1 }, return_logprob := false,
    normalized_prompt_logprob := none }

/-- A concrete waiting queue used by example witnesses: one request at each
of the nodes 1, 2 and 3. -/
def exQueue : List Req := [exReq 1, exReq 2, exReq 3]

/-!
## Theorems
-/

/-- C7: `no_remaining_tokens` returns true if and only if
`rem_total_tokens <= 0`, or `rem_input_tokens <= 0`, or a chunk budget is
configured and `rem_chunk_tokens <= 0`; it returns false exactly when none
of these conditions holds (an unset chunk budget never triggers
exhaustion). -/
theorem C7_no_remaining_tokens_iff (a : PrefillAdder) :
    (a.no_remaining_tokens = true ↔
      (a.rem_total_tokens ≤ 0 ∨ a.rem_input_tokens ≤ 0 ∨
        (∃ c, a.rem_chunk_tokens = some c ∧ c ≤ 0))) ∧
    (a.no_remaining_tokens = false ↔
      ¬ (a.rem_total_tokens ≤ 0 ∨ a.rem_input_tokens ≤ 0 ∨
        (∃ c, a.rem_chunk_tokens = some c ∧ c ≤ 0))) := by
  cases h : a.rem_chunk_tokens <;>
    simp [PrefillAdder.no_remaining_tokens, h] <;>
    tauto

/-- C1: if `total_tokens = extend_input_len + min(max_new_tokens, clip)`,
computed after the authoritative re-match (so `extend_input_len` is the
recomputed `len(fill_ids) - len(prefix_indices)` and `rem_total_tokens`
already includes the delta returned by `match_prefix_lock`), is at least
`rem_total_tokens`, then `add_one_req` returns `False`, the request is not
appended to `can_run_list`, and no budget counter is debited by
`_prefill_one_req` (only the lock deltas of `_lock_req` touch
`rem_total_tokens`). -/
theorem C1_total_tokens_guard (clip : Nat) (a : PrefillAdder) (req : Req)
    (mres : List Nat × Nat × Int) (inc_delta dec_delta : Int)
    (h : a.rem_total_tokens + mres.2.2 ≤
        (((req.origin_input_ids ++ req.output_ids).length : Int) - (mres.1.length : Int))
          + ((min req.sampling_params.max_new_tokens clip : Nat) : Int)) :
    (add_one_req clip a req mres inc_delta dec_delta).admitted = false ∧
    (add_one_req clip a req mres inc_delta dec_delta).adder.can_run_list = a.can_run_list ∧
    (add_one_req clip a req mres inc_delta dec_delta).adder.new_inflight_req = a.new_inflight_req ∧
    (add_one_req clip a req mres inc_delta dec_delta).adder.rem_input_tokens = a.rem_input_tokens ∧
    (add_one_req clip a req mres inc_delta dec_delta).adder.rem_chunk_tokens = a.rem_chunk_tokens ∧
    (add_one_req clip a req mres inc_delta dec_delta).adder.log_hit_tokens = a.log_hit_tokens ∧
    (add_one_req clip a req mres inc_delta dec_delta).adder.log_input_tokens = a.log_input_tokens ∧
    (add_one_req clip a req mres inc_delta dec_delta).adder.rem_total_tokens
      = a.rem_total_tokens + mres.2.2 + dec_delta := by
  unfold add_one_req
  rw [if_pos (by simpa using h)]
  simp [lock_req_exit]

/-- C1 witness: a concrete request whose `total_tokens` (3 + 5) is at least
the remaining total budget (6), hence rejected without any debit. -/
theorem C1_total_tokens_guard_witness :
    (6 : Int) + 0 ≤ ((([1, 2, 3] ++ [] : List Nat).length : Int) - (([] : List Nat).length : Int))
        + ((min 5 4096 : Nat) : Int) ∧
    (add_one_req 4096
      { rem_total_tokens := 6, rem_input_tokens := 100, rem_chunk_tokens := none,
        can_run_list := [], new_inflight_req := none,
        log_hit_tokens := 0, log_input_tokens := 0 }
      { rid := 0, origin_input_ids := [1, 2, 3], output_ids := [], fill_ids := [],
        prefix_indices := [], last_node := 0, extend_input_len := 0,
        sampling_params := { max_new_tokens := 5 }, return_logprob := false,
        normalized_prompt_logprob := none }
      ([], 0, 0) 0 0).admitted = false := by
  refine ⟨by decide, ?_⟩
  exact (C1_total_tokens_guard 4096 _ _ ([], 0, 0) 0 0 (by decide)).1

/-- C4: for a request offered to an admitter whose `can_run_list` is empty,
a `False` return of `add_one_req` can only come from the total-token guard
or from the chunked path with a chunk budget of exactly 0; the input-token
condition `input_tokens > rem_input_tokens` alone never rejects the first
candidate. -/
theorem C4_first_candidate (clip : Nat) (a : PrefillAdder) (req : Req)
    (mres : List Nat × Nat × Int) (inc_delta dec_delta : Int)
    (hempty : a.can_run_list = [])
    (hreject : (add_one_req clip a req mres inc_delta dec_delta).admitted = false) :
    (a.rem_total_tokens + mres.2.2 ≤
        (((req.origin_input_ids ++ req.output_ids).length : Int) - (mres.1.length : Int))
          + ((min req.sampling_params.max_new_tokens clip : Nat) : Int)) ∨
    (a.rem_chunk_tokens = some 0 ∧
      0 < (((req.origin_input_ids ++ req.output_ids).length : Int) - (mres.1.length : Int)) ∧
      ¬ (req.return_logprob = true ∧ req.normalized_prompt_logprob = none)) := by
  simp only [add_one_req] at hreject
  split at hreject
  · left
    rename_i hcond
    simpa using hcond
  · split at hreject
    · rename_i hc
      simp [hempty] at hc
    · split at hreject
      · simp [lock_req_exit] at hreject
      · split at hreject
        · simp [lock_req_exit] at hreject
        · split at hreject
          · right
            rename_i hchunk hnotfit hzero
            refine ⟨by rw [hchunk, hzero], ?_, ?_⟩
            · push_neg at hnotfit
              have := hnotfit.1
              rw [hzero] at this
              simpa using this
            · intro hlp
              exact hnotfit (Or.inr (by simpa using hlp))
          · simp [lock_req_exit] at hreject

/-- C4 witness: an empty admitter with chunk budget 0 rejects a concrete
request, and the reason is one of the two permitted guards (here: the
chunked path with chunk budget exactly 0), not the input-token condition. -/
theorem C4_first_candidate_witness :
    ({ rem_total_tokens := 100, rem_input_tokens := 50, rem_chunk_tokens := some 0,
       can_run_list := [], new_inflight_req := none,
       log_hit_tokens := 0, log_input_tokens := 0 } : PrefillAdder).can_run_list = [] ∧
    (add_one_req 4096
      { rem_total_tokens := 100, rem_input_tokens := 50, rem_chunk_tokens := some 0,
        can_run_list := [], new_inflight_req := none,
        log_hit_tokens := 0, log_input_tokens := 0 }
      { rid := 1, origin_input_ids := [1, 2, 3], output_ids := [], fill_ids := [],
        prefix_indices := [], last_node := 0, extend_input_len := 0,
        sampling_params := { max_new_tokens := 5 }, return_logprob := false,
        normalized_prompt_logprob := none }
      ([], 7, 0) 0 0).admitted = false ∧
    (((100 : Int) + 0 ≤
        ((([1, 2, 3] ++ ([] : List Nat)).length : Int) - (([] : List Nat).length : Int))
          + ((min 5 4096 : Nat) : Int)) ∨
      ((some 0 : Option Int) = some 0 ∧
        0 < ((([1, 2, 3] ++ ([] : List Nat)).length : Int) - (([] : List Nat).length : Int)) ∧
        ¬ (false = true ∧ (none : Option Int) = none))) := by
  refine ⟨rfl, by decide, ?_⟩
  have := C4_first_candidate 4096
    { rem_total_tokens := 100, rem_input_tokens := 50, rem_chunk_tokens := some 0,
      can_run_list := [], new_inflight_req := none,
      log_hit_tokens := 0, log_input_tokens := 0 }
    { rid := 1, origin_input_ids := [1, 2, 3], output_ids := [], fill_ids := [],
      prefix_indices := [], last_node := 0, extend_input_len := 0,
      sampling_params := { max_new_tokens := 5 }, return_logprob := false,
      normalized_prompt_logprob := none }
    ([], 7, 0) 0 0 rfl (by decide)
  exact this

/-- Behaviour of the chunked path of `add_one_req`, shared by several
theorems below: on a call that reaches the chunking decision (total-token
and input-token guards pass), with a chunk budget `some c` configured, the
re-matched `input_tokens` exceeding `c`, and no pending prompt
log-probability: if `c = 0` the call returns `False`; otherwise the request
is admitted chunked with `extend_input_len := c`, `fill_ids` sliced to
prefix length plus `c`, appended to `can_run_list`, recorded as
`new_inflight_req`, and budgets debited with a zero generation
reservation. -/
theorem add_one_req_chunked_spec (clip : Nat) (a : PrefillAdder) (req : Req)
    (mres : List Nat × Nat × Int) (inc_delta dec_delta : Int) (c : Int)
    (hchunk : a.rem_chunk_tokens = some c)
    (hover : c < (((req.origin_input_ids ++ req.output_ids).length : Int) - (mres.1.length : Int)))
    (hlp : ¬ (req.return_logprob = true ∧ req.normalized_prompt_logprob = none))
    (htotal : (((req.origin_input_ids ++ req.output_ids).length : Int) - (mres.1.length : Int))
        + ((min req.sampling_params.max_new_tokens clip : Nat) : Int)
        < a.rem_total_tokens + mres.2.2)
    (hinput : ¬ (a.rem_input_tokens <
          (((req.origin_input_ids ++ req.output_ids).length : Int) - (mres.1.length : Int))
        ∧ a.can_run_list.length ≠ 0)) :
    (c = 0 → (add_one_req clip a req mres inc_delta dec_delta).admitted = false) ∧
    (c ≠ 0 →
      (add_one_req clip a req mres inc_delta dec_delta).admitted = true ∧
      (add_one_req clip a req mres inc_delta dec_delta).req.extend_input_len = c ∧
      (add_one_req clip a req mres inc_delta dec_delta).req.fill_ids
        = pySliceTo (req.origin_input_ids ++ req.output_ids) ((mres.1.length : Int) + c) ∧
      (add_one_req clip a req mres inc_delta dec_delta).adder.can_run_list
        = a.can_run_list ++ [(add_one_req clip a req mres inc_delta dec_delta).req] ∧
      (add_one_req clip a req mres inc_delta dec_delta).adder.new_inflight_req
        = some ((add_one_req clip a req mres inc_delta dec_delta).req) ∧
      (add_one_req clip a req mres inc_delta dec_delta).adder.rem_total_tokens
        = a.rem_total_tokens + mres.2.2 + dec_delta - c ∧
      (add_one_req clip a req mres inc_delta dec_delta).adder.rem_input_tokens
        = a.rem_input_tokens - c ∧
      (add_one_req clip a req mres inc_delta dec_delta).adder.rem_chunk_tokens = some 0 ∧
      (add_one_req clip a req mres inc_delta dec_delta).req.extend_input_len ≤ c) := by
  have h1 : ¬ (a.rem_total_tokens + mres.2.2 ≤
      (((req.origin_input_ids ++ req.output_ids).length : Int) - (mres.1.length : Int))
        + ((min req.sampling_params.max_new_tokens clip : Nat) : Int)) := not_le.mpr htotal
  have h3 : ¬ ((((req.origin_input_ids ++ req.output_ids).length : Int) - (mres.1.length : Int)) ≤ c
      ∨ (req.return_logprob = true ∧ req.normalized_prompt_logprob = none)) :=
    not_or.mpr ⟨not_le.mpr hover, hlp⟩
  constructor
  · intro hc0
    simp only [add_one_req, hchunk]
    rw [if_neg h1, if_neg hinput, if_neg h3, if_pos hc0]
    simp [lock_req_exit]
  · intro hc0
    simp only [add_one_req, hchunk]
    rw [if_neg h1, if_neg hinput, if_neg h3, if_neg hc0]
    simp [lock_req_exit, PrefillAdder.prefill_one_req]
    ring

/-- C3: on a call that reaches the chunking decision (total-token and
input-token guards pass), with a chunk budget `some c` configured, with the
re-matched `input_tokens` exceeding `c`, and with no pending prompt
log-probability: if `c = 0` the call returns `False`; otherwise the request
is admitted chunked — `extend_input_len` is set to `c`, `fill_ids` is
truncated to prefix length plus `c`, the request is appended to
`can_run_list` and recorded as `new_inflight_req`, budgets are debited with
a zero generation-token reservation, and `extend_input_len` never exceeds
the chunk budget held at the moment of the call. -/
theorem C3_chunked_admission (clip : Nat) (a : PrefillAdder) (req : Req)
    (mres : List Nat × Nat × Int) (inc_delta dec_delta : Int) (c : Int)
    (hchunk : a.rem_chunk_tokens = some c)
    (hover : c < (((req.origin_input_ids ++ req.output_ids).length : Int) - (mres.1.length : Int)))
    (hlp : ¬ (req.return_logprob = true ∧ req.normalized_prompt_logprob = none))
    (htotal : (((req.origin_input_ids ++ req.output_ids).length : Int) - (mres.1.length : Int))
        + ((min req.sampling_params.max_new_tokens clip : Nat) : Int)
        < a.rem_total_tokens + mres.2.2)
    (hinput : ¬ (a.rem_input_tokens <
          (((req.origin_input_ids ++ req.output_ids).length : Int) - (mres.1.length : Int))
        ∧ a.can_run_list.length ≠ 0)) :
    (c = 0 → (add_one_req clip a req mres inc_delta dec_delta).admitted = false) ∧
    (c ≠ 0 →
      (add_one_req clip a req mres inc_delta dec_delta).admitted = true ∧
      (add_one_req clip a req mres inc_delta dec_delta).req.extend_input_len = c ∧
      (add_one_req clip a req mres inc_delta dec_delta).req.fill_ids
        = pySliceTo (req.origin_input_ids ++ req.output_ids) ((mres.1.length : Int) + c) ∧
      (add_one_req clip a req mres inc_delta dec_delta).adder.can_run_list
        = a.can_run_list ++ [(add_one_req clip a req mres inc_delta dec_delta).req] ∧
      (add_one_req clip a req mres inc_delta dec_delta).adder.new_inflight_req
        = some ((add_one_req clip a req mres inc_delta dec_delta).req) ∧
      (add_one_req clip a req mres inc_delta dec_delta).adder.rem_total_tokens
        = a.rem_total_tokens + mres.2.2 + dec_delta - c ∧
      (add_one_req clip a req mres inc_delta dec_delta).adder.rem_input_tokens
        = a.rem_input_tokens - c ∧
      (add_one_req clip a req mres inc_delta dec_delta).adder.rem_chunk_tokens = some 0 ∧
      (add_one_req clip a req mres inc_delta dec_delta).req.extend_input_len ≤ c) :=
  add_one_req_chunked_spec clip a req mres inc_delta dec_delta c
    hchunk hover hlp htotal hinput

/-- C3 witness: with a chunk budget of 3 and a 5-token request with no
cached prefix, `add_one_req` admits the request chunked with
`extend_input_len` truncated to 3. -/
theorem C3_chunked_admission_witness :
    (3 : Int) ≠ 0 ∧
    (add_one_req 4096
      { rem_total_tokens := 1000, rem_input_tokens := 1000, rem_chunk_tokens := some 3,
        can_run_list := [], new_inflight_req := none,
        log_hit_tokens := 0, log_input_tokens := 0 }
      { rid := 2, origin_input_ids := [1, 2, 3, 4, 5], output_ids := [], fill_ids := [],
        prefix_indices := [], last_node := 0, extend_input_len := 0,
        sampling_params := { max_new_tokens := 50 }, return_logprob := false,
        normalized_prompt_logprob := none }
      ([], 4, 0) 0 0).admitted = true ∧
    (add_one_req 4096
      { rem_total_tokens := 1000, rem_input_tokens := 1000, rem_chunk_tokens := some 3,
        can_run_list := [], new_inflight_req := none,
        log_hit_tokens := 0, log_input_tokens := 0 }
      { rid := 2, origin_input_ids := [1, 2, 3, 4, 5], output_ids := [], fill_ids := [],
        prefix_indices := [], last_node := 0, extend_input_len := 0,
        sampling_params := { max_new_tokens := 50 }, return_logprob := false,
        normalized_prompt_logprob := none }
      ([], 4, 0) 0 0).req.extend_input_len = 3 := by
  have h := (C3_chunked_admission 4096
    { rem_total_tokens := 1000, rem_input_tokens := 1000, rem_chunk_tokens := some 3,
      can_run_list := [], new_inflight_req := none,
      log_hit_tokens := 0, log_input_tokens := 0 }
    { rid := 2, origin_input_ids := [1, 2, 3, 4, 5], output_ids := [], fill_ids := [],
      prefix_indices := [], last_node := 0, extend_input_len := 0,
      sampling_params := { max_new_tokens := 50 }, return_logprob := false,
      normalized_prompt_logprob := none }
    ([], 4, 0) 0 0 3 rfl (by decide) (by decide) (by decide) (by decide)).2 (by decide)
  exact ⟨by decide, h.1, h.2.1⟩

/-- Every exit path of `add_one_req` produces the trace
`matchLock n :: evs ++ [decLock n]` on the matched node `n`, where `evs` is
empty (rejection) or the single permanent `incLock n` (admission). -/
theorem add_one_req_events_shape (clip : Nat) (a : PrefillAdder) (req : Req)
    (mres : List Nat × Nat × Int) (inc_delta dec_delta : Int) :
    ∃ evs, (evs = [] ∨ evs = [LockEvent.incLock mres.2.1]) ∧
      (add_one_req clip a req mres inc_delta dec_delta).events
        = LockEvent.matchLock mres.2.1 :: (evs ++ [LockEvent.decLock mres.2.1]) := by
  simp only [add_one_req]
  split
  · exact ⟨[], Or.inl rfl, rfl⟩
  · split
    · exact ⟨[], Or.inl rfl, rfl⟩
    · split
      · exact ⟨[LockEvent.incLock mres.2.1], Or.inr rfl, rfl⟩
      · split
        · exact ⟨[LockEvent.incLock mres.2.1], Or.inr rfl, rfl⟩
        · split
          · exact ⟨[], Or.inl rfl, rfl⟩
          · exact ⟨[LockEvent.incLock mres.2.1], Or.inr rfl, rfl⟩

/-- C2: on every exit path of `add_one_req` the temporary lock taken by the
match-and-lock re-validation is released exactly once by `dec_lock_ref` on
the matched `last_node` (the trace contains exactly one `matchLock` and
exactly one `decLock`, both on the matched node), and consequently over any
sequence of calls the number of temporary acquisitions equals the number of
releases. -/
theorem C2_lock_balance :
    (∀ (clip : Nat) (a : PrefillAdder) (req : Req)
        (mres : List Nat × Nat × Int) (inc_delta dec_delta : Int),
      (add_one_req clip a req mres inc_delta dec_delta).events.filter LockEvent.isMatchLock
          = [LockEvent.matchLock mres.2.1] ∧
      (add_one_req clip a req mres inc_delta dec_delta).events.filter LockEvent.isDecLock
          = [LockEvent.decLock mres.2.1]) ∧
    (∀ (clip : Nat) (a : PrefillAdder)
        (calls : List (Req × (List Nat × Nat × Int) × Int × Int)),
      (run_add_reqs clip a calls).2.countP LockEvent.isMatchLock
        = (run_add_reqs clip a calls).2.countP LockEvent.isDecLock) := by
  have hshape : ∀ (clip : Nat) (a : PrefillAdder) (req : Req)
      (mres : List Nat × Nat × Int) (inc_delta dec_delta : Int),
      (add_one_req clip a req mres inc_delta dec_delta).events.filter LockEvent.isMatchLock
          = [LockEvent.matchLock mres.2.1] ∧
      (add_one_req clip a req mres inc_delta dec_delta).events.filter LockEvent.isDecLock
          = [LockEvent.decLock mres.2.1] := by
    intro clip a req mres inc_delta dec_delta
    obtain ⟨evs, hevs, heq⟩ := add_one_req_events_shape clip a req mres inc_delta dec_delta
    rcases hevs with h | h <;> subst h <;> rw [heq] <;>
      simp [List.filter, LockEvent.isMatchLock, LockEvent.isDecLock]
  refine ⟨hshape, ?_⟩
  intro clip a calls
  induction calls generalizing a with
  | nil => rfl
  | cons call rest ih =>
    obtain ⟨r, m, i, d⟩ := call
    have h := hshape clip a r m i d
    have hm : (add_one_req clip a r m i d).events.countP LockEvent.isMatchLock = 1 := by
      rw [List.countP_eq_length_filter, h.1]
      rfl
    have hd : (add_one_req clip a r m i d).events.countP LockEvent.isDecLock = 1 := by
      rw [List.countP_eq_length_filter, h.2]
      rfl
    simp only [run_add_reqs, List.countP_append, hm, hd]
    rw [ih]

/-- C6: with a chunk budget `some c` configured, `add_inflight_req` appends
the request to `can_run_list` unconditionally, clips `extend_input_len` to
`min(extend_input_len, c)` and truncates `fill_ids` accordingly, debits
budgets with the full clipped generation reservation
`min(max_new_tokens, clip)` exactly when the incoming `extend_input_len`
was at most `c` (and zero otherwise), and returns the request itself when it
was truncated and nothing when the chunk completed. -/
theorem C6_add_inflight_req (clip : Nat) (a : PrefillAdder) (req : Req) (c : Int)
    (hchunk : a.rem_chunk_tokens = some c) :
    ∃ a2 req2 ret, PrefillAdder.add_inflight_req clip a req = some (a2, req2, ret) ∧
      req2.extend_input_len = min req.extend_input_len c ∧
      req2.fill_ids = pySliceTo req.fill_ids
        ((req.prefix_indices.length : Int) + min req.extend_input_len c) ∧
      a2.can_run_list = a.can_run_list ++ [req2] ∧
      a2.rem_total_tokens = a.rem_total_tokens - (min req.extend_input_len c +
        (if req.extend_input_len ≤ c
          then ((min req.sampling_params.max_new_tokens clip : Nat) : Int) else 0)) ∧
      a2.rem_input_tokens = a.rem_input_tokens - min req.extend_input_len c ∧
      a2.rem_chunk_tokens = some (c - min req.extend_input_len c) ∧
      ret = (if c < req.extend_input_len then some req2 else none) := by
  by_cases ht : c < req.extend_input_len
  · simp only [PrefillAdder.add_inflight_req, hchunk, if_pos ht,
      PrefillAdder.prefill_one_req]
    refine ⟨_, _, _, rfl, rfl, rfl, rfl, ?_, rfl, ?_, rfl⟩
    · rw [if_neg (by omega)]
    · simp
  · simp only [PrefillAdder.add_inflight_req, hchunk, if_neg ht,
      PrefillAdder.prefill_one_req]
    refine ⟨_, _, _, rfl, rfl, rfl, rfl, ?_, rfl, ?_, rfl⟩
    · rw [if_pos (by omega)]
    · simp

/-- C6 witness: chunk budget 3, inflight request with `extend_input_len` 5:
appended, clipped to 3, zero generation debit (still truncated), and the
request itself is returned. -/
theorem C6_add_inflight_req_witness :
    ({ rem_total_tokens := 1000, rem_input_tokens := 1000, rem_chunk_tokens := some 3,
       can_run_list := [], new_inflight_req := none,
       log_hit_tokens := 0, log_input_tokens := 0 } : PrefillAdder).rem_chunk_tokens
      = some 3 ∧
    (∃ a2 req2 ret, PrefillAdder.add_inflight_req 4096
      { rem_total_tokens := 1000, rem_input_tokens := 1000, rem_chunk_tokens := some 3,
        can_run_list := [], new_inflight_req := none,
        log_hit_tokens := 0, log_input_tokens := 0 }
      { rid := 3, origin_input_ids := [1, 2, 3, 4, 5], output_ids := [],
        fill_ids := [1, 2, 3, 4, 5], prefix_indices := [], last_node := 0,
        extend_input_len := 5, sampling_params := { max_new_tokens := 7 },
        return_logprob := false, normalized_prompt_logprob := none }
      = some (a2, req2, ret) ∧
      req2.extend_input_len = min (5 : Int) 3 ∧
      req2.fill_ids = pySliceTo [1, 2, 3, 4, 5] ((([] : List Nat).length : Int) + min (5 : Int) 3) ∧
      a2.can_run_list = [] ++ [req2] ∧
      a2.rem_total_tokens = 1000 - (min (5 : Int) 3 +
        (if (5 : Int) ≤ 3 then ((min 7 4096 : Nat) : Int) else 0)) ∧
      a2.rem_input_tokens = 1000 - min (5 : Int) 3 ∧
      a2.rem_chunk_tokens = some (3 - min (5 : Int) 3) ∧
      ret = (if (3 : Int) < 5 then some req2 else none)) := by
  exact ⟨rfl, C6_add_inflight_req 4096 _ _ 3 rfl⟩

/-- C9 (implicit): `add_inflight_req` requires a configured chunk budget:
when `rem_chunk_tokens` is unset the very first comparison
`req.extend_input_len > self.rem_chunk_tokens` fails (a Python `TypeError`,
modelled as `none`) before any state is mutated. -/
theorem C9_add_inflight_req_requires_chunk (clip : Nat) (a : PrefillAdder) (req : Req)
    (hnone : a.rem_chunk_tokens = none) :
    PrefillAdder.add_inflight_req clip a req = none := by
  simp [PrefillAdder.add_inflight_req, hnone]

/-- C9 witness: a concrete adder with no chunk budget makes
`add_inflight_req` fail. -/
theorem C9_add_inflight_req_requires_chunk_witness :
    ({ rem_total_tokens := 1000, rem_input_tokens := 1000, rem_chunk_tokens := none,
       can_run_list := [], new_inflight_req := none,
       log_hit_tokens := 0, log_input_tokens := 0 } : PrefillAdder).rem_chunk_tokens
      = none ∧
    PrefillAdder.add_inflight_req 4096
      { rem_total_tokens := 1000, rem_input_tokens := 1000, rem_chunk_tokens := none,
        can_run_list := [], new_inflight_req := none,
        log_hit_tokens := 0, log_input_tokens := 0 }
      { rid := 4, origin_input_ids := [1], output_ids := [], fill_ids := [1],
        prefix_indices := [], last_node := 0, extend_input_len := 1,
        sampling_params := { max_new_tokens := 2 }, return_logprob := false,
        normalized_prompt_logprob := none } = none := by
  exact ⟨rfl, C9_add_inflight_req_requires_chunk 4096 _ _ rfl⟩

/-- C8 (amended): the deltas returned by `match_prefix_lock` and by the
`dec_lock_ref` of `_lock_req` are always added to `rem_total_tokens`, but
the delta returned by the permanent `inc_lock_ref` transfer is discarded:
the result of `add_one_req` does not depend on it at all, and the final
`rem_total_tokens` is the entry value plus the match and release deltas,
minus only the `_prefill_one_req` debit (extend plus a generation
reservation of either zero or the clipped `max_new_tokens`). -/
theorem C8_lock_deltas_amended (clip : Nat) (a : PrefillAdder) (req : Req)
    (mres : List Nat × Nat × Int) (inc_delta inc_delta' dec_delta : Int) :
    add_one_req clip a req mres inc_delta dec_delta
      = add_one_req clip a req mres inc_delta' dec_delta ∧
    ((add_one_req clip a req mres inc_delta dec_delta).admitted = false →
      (add_one_req clip a req mres inc_delta dec_delta).adder.rem_total_tokens
        = a.rem_total_tokens + mres.2.2 + dec_delta) ∧
    ((add_one_req clip a req mres inc_delta dec_delta).admitted = true →
      ∃ gen : Int,
        (gen = 0 ∨ gen = ((min req.sampling_params.max_new_tokens clip : Nat) : Int)) ∧
        (add_one_req clip a req mres inc_delta dec_delta).adder.rem_total_tokens
          = a.rem_total_tokens + mres.2.2 + dec_delta
            - ((add_one_req clip a req mres inc_delta dec_delta).req.extend_input_len + gen)) := by
  refine ⟨rfl, ?_, ?_⟩
  · simp only [add_one_req]
    split
    · intro _
      simp [lock_req_exit]
    · split
      · intro _
        simp [lock_req_exit]
      · split
        · simp [lock_req_exit]
        · split
          · simp [lock_req_exit]
          · split
            · intro _
              simp [lock_req_exit]
            · simp [lock_req_exit]
  · simp only [add_one_req]
    split
    · simp [lock_req_exit]
    · split
      · simp [lock_req_exit]
      · split
        · intro _
          refine ⟨((min req.sampling_params.max_new_tokens clip : Nat) : Int), Or.inr rfl, ?_⟩
          simp [lock_req_exit, PrefillAdder.prefill_one_req]
          ring
        · split
          · intro _
            refine ⟨((min req.sampling_params.max_new_tokens clip : Nat) : Int), Or.inr rfl, ?_⟩
            simp [lock_req_exit, PrefillAdder.prefill_one_req]
            ring
          · split
            · simp [lock_req_exit]
            · intro _
              refine ⟨0, Or.inl rfl, ?_⟩
              simp [lock_req_exit, PrefillAdder.prefill_one_req]
              ring

/-- C8 counterexample: a concrete admission where the cache's
`inc_lock_ref` on the permanent transfer returns delta 7, yet the final
`rem_total_tokens` is 992 = 1000 - (3 + 5), identical to the run where that
delta is 0 — the delta is not applied to `rem_total_tokens`, contradicting
the claim that every returned delta is applied. -/
theorem C8_lock_deltas_counterexample :
    (add_one_req 4096
      { rem_total_tokens := 1000, rem_input_tokens := 1000, rem_chunk_tokens := none,
        can_run_list := [], new_inflight_req := none,
        log_hit_tokens := 0, log_input_tokens := 0 }
      { rid := 5, origin_input_ids := [1, 2, 3], output_ids := [], fill_ids := [],
        prefix_indices := [], last_node := 0, extend_input_len := 0,
        sampling_params := { max_new_tokens := 5 }, return_logprob := false,
        normalized_prompt_logprob := none }
      ([], 9, 0) 7 0).admitted = true ∧
    (add_one_req 4096
      { rem_total_tokens := 1000, rem_input_tokens := 1000, rem_chunk_tokens := none,
        can_run_list := [], new_inflight_req := none,
        log_hit_tokens := 0, log_input_tokens := 0 }
      { rid := 5, origin_input_ids := [1, 2, 3], output_ids := [], fill_ids := [],
        prefix_indices := [], last_node := 0, extend_input_len := 0,
        sampling_params := { max_new_tokens := 5 }, return_logprob := false,
        normalized_prompt_logprob := none }
      ([], 9, 0) 7 0).adder.rem_total_tokens = 992 ∧
    (add_one_req 4096
      { rem_total_tokens := 1000, rem_input_tokens := 1000, rem_chunk_tokens := none,
        can_run_list := [], new_inflight_req := none,
        log_hit_tokens := 0, log_input_tokens := 0 }
      { rid := 5, origin_input_ids := [1, 2, 3], output_ids := [], fill_ids := [],
        prefix_indices := [], last_node := 0, extend_input_len := 0,
        sampling_params := { max_new_tokens := 5 }, return_logprob := false,
        normalized_prompt_logprob := none }
      ([], 9, 0) 0 0).adder.rem_total_tokens = 992 := by
  refine ⟨by decide, by decide, by decide⟩

/-- C8 witness for the amended theorem: at the concrete admission of the
counterexample, the accounting identity holds with the clipped generation
reservation. -/
theorem C8_lock_deltas_amended_witness :
    (add_one_req 4096
      { rem_total_tokens := 1000, rem_input_tokens := 1000, rem_chunk_tokens := none,
        can_run_list := [], new_inflight_req := none,
        log_hit_tokens := 0, log_input_tokens := 0 }
      { rid := 6, origin_input_ids := [1, 2, 3], output_ids := [], fill_ids := [],
        prefix_indices := [], last_node := 0, extend_input_len := 0,
        sampling_params := { max_new_tokens := 5 }, return_logprob := false,
        normalized_prompt_logprob := none }
      ([], 9, 0) 7 0).admitted = true ∧
    (∃ gen : Int, (gen = 0 ∨ gen = ((min 5 4096 : Nat) : Int)) ∧
      (add_one_req 4096
        { rem_total_tokens := 1000, rem_input_tokens := 1000, rem_chunk_tokens := none,
          can_run_list := [], new_inflight_req := none,
          log_hit_tokens := 0, log_input_tokens := 0 }
        { rid := 6, origin_input_ids := [1, 2, 3], output_ids := [], fill_ids := [],
          prefix_indices := [], last_node := 0, extend_input_len := 0,
          sampling_params := { max_new_tokens := 5 }, return_logprob := false,
          normalized_prompt_logprob := none }
        ([], 9, 0) 7 0).adder.rem_total_tokens
        = 1000 + 0 + 0 -
          ((add_one_req 4096
            { rem_total_tokens := 1000, rem_input_tokens := 1000, rem_chunk_tokens := none,
              can_run_list := [], new_inflight_req := none,
              log_hit_tokens := 0, log_input_tokens := 0 }
            { rid := 6, origin_input_ids := [1, 2, 3], output_ids := [], fill_ids := [],
              prefix_indices := [], last_node := 0, extend_input_len := 0,
              sampling_params := { max_new_tokens := 5 }, return_logprob := false,
              normalized_prompt_logprob := none }
            ([], 9, 0) 7 0).req.extend_input_len + gen)) := by
  refine ⟨by decide, (C8_lock_deltas_amended 4096
    { rem_total_tokens := 1000, rem_input_tokens := 1000, rem_chunk_tokens := none,
      can_run_list := [], new_inflight_req := none,
      log_hit_tokens := 0, log_input_tokens := 0 }
    { rid := 6, origin_input_ids := [1, 2, 3], output_ids := [], fill_ids := [],
      prefix_indices := [], last_node := 0, extend_input_len := 0,
      sampling_params := { max_new_tokens := 5 }, return_logprob := false,
      normalized_prompt_logprob := none }
    ([], 9, 0) 7 7 0).2.2 (by decide)⟩

/-- C10 (amended): on the chunked path `add_one_req` rejects only when the
chunk budget is exactly 0.  When the path is reached with a strictly
negative `rem_chunk_tokens = some c`, the request is still admitted, with
`extend_input_len` set to the negative value `c` and `fill_ids` set to the
Python slice `fill_ids[: prefix_len + c]`; that slice is strictly shorter
than the matched prefix whenever `prefix_len + c >= 0` (for a negative slice
index Python instead counts from the end of the list). -/
theorem C10_negative_chunk_admitted (clip : Nat) (a : PrefillAdder) (req : Req)
    (mres : List Nat × Nat × Int) (inc_delta dec_delta : Int) (c : Int)
    (hchunk : a.rem_chunk_tokens = some c)
    (hneg : c < 0)
    (hover : c < (((req.origin_input_ids ++ req.output_ids).length : Int) - (mres.1.length : Int)))
    (hlp : ¬ (req.return_logprob = true ∧ req.normalized_prompt_logprob = none))
    (htotal : (((req.origin_input_ids ++ req.output_ids).length : Int) - (mres.1.length : Int))
        + ((min req.sampling_params.max_new_tokens clip : Nat) : Int)
        < a.rem_total_tokens + mres.2.2)
    (hinput : ¬ (a.rem_input_tokens <
          (((req.origin_input_ids ++ req.output_ids).length : Int) - (mres.1.length : Int))
        ∧ a.can_run_list.length ≠ 0)) :
    (add_one_req clip a req mres inc_delta dec_delta).admitted = true ∧
    (add_one_req clip a req mres inc_delta dec_delta).req.extend_input_len = c ∧
    (add_one_req clip a req mres inc_delta dec_delta).req.fill_ids
      = pySliceTo (req.origin_input_ids ++ req.output_ids) ((mres.1.length : Int) + c) ∧
    (0 ≤ (mres.1.length : Int) + c →
      ((pySliceTo (req.origin_input_ids ++ req.output_ids)
        ((mres.1.length : Int) + c)).length : Int) < (mres.1.length : Int)) := by
  have h := (add_one_req_chunked_spec clip a req mres inc_delta dec_delta c
    hchunk hover hlp htotal hinput).2 (by omega)
  refine ⟨h.1, h.2.1, h.2.2.1, ?_⟩
  intro hge
  simp only [pySliceTo, if_pos hge, List.length_take]
  have := Int.toNat_of_nonneg hge
  omega

/-- C10 counterexample: chunk budget -1 with an empty matched prefix.  The
request is admitted with `extend_input_len = -1` as the claim says, but the
resulting `fill_ids` (the Python slice `fill_ids[:-1]`, here of length 2) is
not shorter than the matched prefix length (0): Python's negative slice
index counts from the end, so `fill_ids` is not "truncated below the matched
prefix length". -/
theorem C10_negative_chunk_counterexample :
    (add_one_req 4096
      { rem_total_tokens := 1000, rem_input_tokens := 1000, rem_chunk_tokens := some (-1),
        can_run_list := [], new_inflight_req := none,
        log_hit_tokens := 0, log_input_tokens := 0 }
      { rid := 7, origin_input_ids := [1, 2, 3], output_ids := [], fill_ids := [],
        prefix_indices := [], last_node := 0, extend_input_len := 0,
        sampling_params := { max_new_tokens := 5 }, return_logprob := false,
        normalized_prompt_logprob := none }
      ([], 2, 0) 0 0).admitted = true ∧
    (add_one_req 4096
      { rem_total_tokens := 1000, rem_input_tokens := 1000, rem_chunk_tokens := some (-1),
        can_run_list := [], new_inflight_req := none,
        log_hit_tokens := 0, log_input_tokens := 0 }
      { rid := 7, origin_input_ids := [1, 2, 3], output_ids := [], fill_ids := [],
        prefix_indices := [], last_node := 0, extend_input_len := 0,
        sampling_params := { max_new_tokens := 5 }, return_logprob := false,
        normalized_prompt_logprob := none }
      ([], 2, 0) 0 0).req.extend_input_len = -1 ∧
    ¬ (((add_one_req 4096
      { rem_total_tokens := 1000, rem_input_tokens := 1000, rem_chunk_tokens := some (-1),
        can_run_list := [], new_inflight_req := none,
        log_hit_tokens := 0, log_input_tokens := 0 }
      { rid := 7, origin_input_ids := [1, 2, 3], output_ids := [], fill_ids := [],
        prefix_indices := [], last_node := 0, extend_input_len := 0,
        sampling_params := { max_new_tokens := 5 }, return_logprob := false,
        normalized_prompt_logprob := none }
      ([], 2, 0) 0 0).req.fill_ids.length : Int)
        < ((add_one_req 4096
      { rem_total_tokens := 1000, rem_input_tokens := 1000, rem_chunk_tokens := some (-1),
        can_run_list := [], new_inflight_req := none,
        log_hit_tokens := 0, log_input_tokens := 0 }
      { rid := 7, origin_input_ids := [1, 2, 3], output_ids := [], fill_ids := [],
        prefix_indices := [], last_node := 0, extend_input_len := 0,
        sampling_params := { max_new_tokens := 5 }, return_logprob := false,
        normalized_prompt_logprob := none }
      ([], 2, 0) 0 0).req.prefix_indices.length : Int)) := by
  refine ⟨by decide, by decide, by decide⟩

/-- C10 witness: chunk budget -1 with a matched prefix of length 2 on a
5-token request; the chunked path is reached, the request is admitted with
`extend_input_len = -1`, and here `prefix_len + c = 1 ≥ 0`, so the slice is
indeed shorter than the matched prefix. -/
theorem C10_negative_chunk_admitted_witness :
    ({ rem_total_tokens := 1000, rem_input_tokens := 1000, rem_chunk_tokens := some (-1),
       can_run_list := [], new_inflight_req := none,
       log_hit_tokens := 0, log_input_tokens := 0 } : PrefillAdder).rem_chunk_tokens
      = some (-1) ∧
    (-1 : Int) < 0 ∧
    ((add_one_req 4096
      { rem_total_tokens := 1000, rem_input_tokens := 1000, rem_chunk_tokens := some (-1),
        can_run_list := [], new_inflight_req := none,
        log_hit_tokens := 0, log_input_tokens := 0 }
      { rid := 8, origin_input_ids := [1, 2, 3, 4, 5], output_ids := [], fill_ids := [],
        prefix_indices := [], last_node := 0, extend_input_len := 0,
        sampling_params := { max_new_tokens := 5 }, return_logprob := false,
        normalized_prompt_logprob := none }
      ([10, 11], 2, 0) 0 0).admitted = true ∧
    (add_one_req 4096
      { rem_total_tokens := 1000, rem_input_tokens := 1000, rem_chunk_tokens := some (-1),
        can_run_list := [], new_inflight_req := none,
        log_hit_tokens := 0, log_input_tokens := 0 }
      { rid := 8, origin_input_ids := [1, 2, 3, 4, 5], output_ids := [], fill_ids := [],
        prefix_indices := [], last_node := 0, extend_input_len := 0,
        sampling_params := { max_new_tokens := 5 }, return_logprob := false,
        normalized_prompt_logprob := none }
      ([10, 11], 2, 0) 0 0).req.extend_input_len = -1 ∧
    (add_one_req 4096
      { rem_total_tokens := 1000, rem_input_tokens := 1000, rem_chunk_tokens := some (-1),
        can_run_list := [], new_inflight_req := none,
        log_hit_tokens := 0, log_input_tokens := 0 }
      { rid := 8, origin_input_ids := [1, 2, 3, 4, 5], output_ids := [], fill_ids := [],
        prefix_indices := [], last_node := 0, extend_input_len := 0,
        sampling_params := { max_new_tokens := 5 }, return_logprob := false,
        normalized_prompt_logprob := none }
      ([10, 11], 2, 0) 0 0).req.fill_ids
        = pySliceTo ([1, 2, 3, 4, 5] ++ ([] : List Nat)) ((([10, 11] : List Nat).length : Int) + -1) ∧
    (0 ≤ (([10, 11] : List Nat).length : Int) + -1 →
      ((pySliceTo ([1, 2, 3, 4, 5] ++ ([] : List Nat))
        ((([10, 11] : List Nat).length : Int) + -1)).length : Int)
        < (([10, 11] : List Nat).length : Int))) := by
  refine ⟨rfl, by decide, ?_⟩
  exact C10_negative_chunk_admitted 4096
    { rem_total_tokens := 1000, rem_input_tokens := 1000, rem_chunk_tokens := some (-1),
      can_run_list := [], new_inflight_req := none,
      log_hit_tokens := 0, log_input_tokens := 0 }
    { rid := 8, origin_input_ids := [1, 2, 3, 4, 5], output_ids := [], fill_ids := [],
      prefix_indices := [], last_node := 0, extend_input_len := 0,
      sampling_params := { max_new_tokens := 5 }, return_logprob := false,
      normalized_prompt_logprob := none }
    ([10, 11], 2, 0) 0 0 (-1) rfl (by decide) (by decide) (by decide) (by decide) (by decide)

/-- Structural induction over rose trees: to prove `P t` it suffices to
prove `P (mk i cs)` from `P c` for every child `c`. -/
theorem TreeNode.inductionOn (P : TreeNode → Prop)
    (step : ∀ i cs, (∀ c ∈ cs, P c) → P (TreeNode.mk i cs)) : ∀ t, P t := by
  have H : ∀ (n : Nat) (t : TreeNode), sizeOf t ≤ n → P t := by
    intro n
    induction n with
    | zero =>
      intro t h
      cases t with
      | mk i cs =>
        simp only [TreeNode.mk.sizeOf_spec] at h
        omega
    | succ n ih =>
      intro t h
      cases t with
      | mk i cs =>
        refine step i cs ?_
        intro c hc
        refine ih c ?_
        have hlt := List.sizeOf_lt_of_mem hc
        simp only [TreeNode.mk.sizeOf_spec] at h
        omega
  exact fun t => H (sizeOf t) t (le_refl _)

/-- Membership in the subtrees of a forest. -/
theorem mem_subtreesOfList_iff (s : TreeNode) (cs : List TreeNode) :
    s ∈ TreeNode.subtreesOfList cs ↔ ∃ c ∈ cs, s ∈ c.subtreesOf := by
  induction cs with
  | nil => simp [TreeNode.subtreesOfList]
  | cons c rest ih =>
    simp [TreeNode.subtreesOfList, ih]

/-- Every tree is one of its own subtrees. -/
theorem self_mem_subtreesOf (t : TreeNode) : t ∈ t.subtreesOf := by
  cases t with
  | mk i cs => simp [TreeNode.subtreesOf]

/-- Children are subtrees. -/
theorem children_mem_subtreesOf {c t : TreeNode} (hc : c ∈ t.children) :
    c ∈ t.subtreesOf := by
  cases t with
  | mk i cs =>
    simp only [TreeNode.children] at hc
    simp only [TreeNode.subtreesOf, List.mem_cons]
    exact Or.inr ((mem_subtreesOfList_iff c cs).mpr ⟨c, hc, self_mem_subtreesOf c⟩)

/-- Subtree membership is transitive. -/
theorem subtreesOf_trans : ∀ (t : TreeNode), ∀ s ∈ t.subtreesOf,
    ∀ s' ∈ s.subtreesOf, s' ∈ t.subtreesOf := by
  refine TreeNode.inductionOn _ ?_
  intro i cs ih s hs s' hs'
  simp only [TreeNode.subtreesOf, List.mem_cons] at hs
  rcases hs with rfl | hs
  · exact hs'
  · obtain ⟨c, hc, hsc⟩ := (mem_subtreesOfList_iff s cs).mp hs
    simp only [TreeNode.subtreesOf, List.mem_cons]
    exact Or.inr ((mem_subtreesOfList_iff s' cs).mpr ⟨c, hc, ih c hc s hsc s' hs'⟩)

/-- The node ids of a subtree are among the node ids of the tree. -/
theorem allIds_subset_of_mem_subtreesOf : ∀ (t : TreeNode), ∀ s ∈ t.subtreesOf,
    ∀ j ∈ s.allIds, j ∈ t.allIds := by
  refine TreeNode.inductionOn _ ?_
  intro i cs ih s hs j hj
  simp only [TreeNode.subtreesOf, List.mem_cons] at hs
  rcases hs with rfl | hs
  · exact hj
  · obtain ⟨c, hc, hsc⟩ := (mem_subtreesOfList_iff s cs).mp hs
    have hjc : j ∈ c.allIds := ih c hc s hsc j hj
    simp only [TreeNode.allIds, List.mem_cons]
    refine Or.inr ?_
    clear ih hs hsc hj
    induction cs with
    | nil => cases hc
    | cons d rest ihl =>
      simp only [TreeNode.allIdsList, List.mem_append]
      rcases List.mem_cons.mp hc with rfl | hd
      · exact Or.inl hjc
      · exact Or.inr (ihl hd)

/-- The root id of a subtree is an id of the tree. -/
theorem nid_mem_allIds {s t : TreeNode} (hs : s ∈ t.subtreesOf) :
    s.nid ∈ t.allIds := by
  refine allIds_subset_of_mem_subtreesOf t s hs s.nid ?_
  cases s with
  | mk i cs => simp [TreeNode.allIds, TreeNode.nid]

/-- Ids of a member tree are ids of the forest. -/
theorem mem_allIdsList_of_mem {j : Nat} {c : TreeNode} {cs : List TreeNode}
    (hc : c ∈ cs) (hj : j ∈ c.allIds) : j ∈ TreeNode.allIdsList cs := by
  induction cs with
  | nil => cases hc
  | cons d rest ih =>
    simp only [TreeNode.allIdsList, List.mem_append]
    rcases List.mem_cons.mp hc with rfl | hd
    · exact Or.inl hj
    · exact Or.inr (ih hd)

/-- Reading frame: `weightOfList` only reads the direct counts at the ids of the forest
(stated with the per-tree congruence as a hypothesis, to be discharged by
`weightOf_congr`). -/
theorem weightOfList_congr_of (cs : List TreeNode)
    (hcs : ∀ c ∈ cs, ∀ (w w' : Nat → Nat),
      (∀ j ∈ c.allIds, w j = w' j) → weightOf w c = weightOf w' c)
    (w w' : Nat → Nat) (hagree : ∀ j ∈ TreeNode.allIdsList cs, w j = w' j) :
    weightOfList w cs = weightOfList w' cs := by
  induction cs with
  | nil => rfl
  | cons c rest ih =>
    simp only [weightOfList]
    rw [hcs c (by simp) w w'
        (fun j hj => hagree j (by simp only [TreeNode.allIdsList, List.mem_append]; exact Or.inl hj)),
      ih (fun c hc => hcs c (by simp [hc]))
        (fun j hj => hagree j (by simp only [TreeNode.allIdsList, List.mem_append]; exact Or.inr hj))]

/-- Reading frame: `weightOf` only reads the direct counts at the ids of the tree. -/
theorem weightOf_congr : ∀ (t : TreeNode) (w w' : Nat → Nat),
    (∀ j ∈ t.allIds, w j = w' j) → weightOf w t = weightOf w' t := by
  refine TreeNode.inductionOn _ ?_
  intro i cs ih w w' hagree
  simp only [weightOf]
  rw [hagree i (by simp [TreeNode.allIds]),
    weightOfList_congr_of cs (fun c hc => ih c hc) w w'
      (fun j hj => hagree j (by simp [TreeNode.allIds, hj]))]

/-- Congruence for `weightOfList` with the per-tree side conditions
discharged. -/
theorem weightOfList_congr (cs : List TreeNode) (w w' : Nat → Nat)
    (hagree : ∀ j ∈ TreeNode.allIdsList cs, w j = w' j) :
    weightOfList w cs = weightOfList w' cs :=
  weightOfList_congr_of cs (fun c _ => weightOf_congr c) w w' hagree

/-- The children loop of `calc_weight` leaves entries outside
`{i} ∪ ids(cs)` untouched. -/
theorem calc_weight_children_frame (i : Nat) (cs : List TreeNode)
    (hcs : ∀ c ∈ cs, ∀ (w : Nat → Nat) (j : Nat), j ∉ c.allIds → calc_weight c w j = w j) :
    ∀ (w : Nat → Nat) (j : Nat), j ≠ i → j ∉ TreeNode.allIdsList cs →
      calc_weight_children i cs w j = w j := by
  induction cs with
  | nil => intro w j _ _; rfl
  | cons c rest ih =>
    intro w j hji hj
    simp only [TreeNode.allIdsList, List.mem_append] at hj
    push_neg at hj
    simp only [calc_weight_children]
    rw [ih (fun c hc => hcs c (by simp [hc])) _ j hji hj.2]
    simp only [updW]
    rw [if_neg hji]
    exact hcs c (by simp) w j hj.1

/-- Frame property: `calc_weight` leaves entries outside the tree's ids untouched. -/
theorem calc_weight_frame : ∀ (t : TreeNode) (w : Nat → Nat) (j : Nat),
    j ∉ t.allIds → calc_weight t w j = w j := by
  refine TreeNode.inductionOn _ ?_
  intro i cs ih w j hj
  simp only [TreeNode.allIds, List.mem_cons] at hj
  push_neg at hj
  simp only [calc_weight]
  exact calc_weight_children_frame i cs (fun c hc => ih c hc) w j hj.1 hj.2

/-- The children loop of `calc_weight`, on a node `i` with pairwise distinct
ids: it adds the accumulated child weights to entry `i`, finalises every
subtree entry of each child at its structural weight, and leaves everything
else untouched. -/
theorem calc_weight_children_spec (i : Nat) (cs : List TreeNode)
    (hcs : ∀ c ∈ cs, ∀ (w : Nat → Nat), c.allIds.Nodup →
        ∀ s ∈ c.subtreesOf, calc_weight c w s.nid = weightOf w s)
    (w : Nat → Nat) (hnodup : (i :: TreeNode.allIdsList cs).Nodup) :
    (calc_weight_children i cs w i = w i + weightOfList w cs) ∧
    (∀ c ∈ cs, ∀ s ∈ c.subtreesOf, calc_weight_children i cs w s.nid = weightOf w s) ∧
    (∀ j, j ≠ i → j ∉ TreeNode.allIdsList cs → calc_weight_children i cs w j = w j) := by
  induction cs generalizing w with
  | nil =>
    refine ⟨by simp [calc_weight_children, weightOfList], by simp, fun j _ _ => rfl⟩
  | cons c rest ih =>
    have hnodup' : (i :: (c.allIds ++ TreeNode.allIdsList rest)).Nodup := by
      simpa [TreeNode.allIdsList] using hnodup
    have hic : i ∉ c.allIds := fun h =>
      (List.nodup_cons.mp hnodup').1 (List.mem_append.mpr (Or.inl h))
    have hirest : i ∉ TreeNode.allIdsList rest := fun h =>
      (List.nodup_cons.mp hnodup').1 (List.mem_append.mpr (Or.inr h))
    have happ := List.nodup_append.mp (List.nodup_cons.mp hnodup').2
    have hcnodup : c.allIds.Nodup := happ.1
    have hrestnodup : (TreeNode.allIdsList rest).Nodup := happ.2.1
    have hdisj : ∀ j ∈ c.allIds, j ∉ TreeNode.allIdsList rest := by
      intro j hj
      exact happ.2.2 hj
    -- the state after processing child c
    set w1 := calc_weight c w with hw1
    have hw1_out : ∀ j, j ∉ c.allIds → w1 j = w j := fun j hj => calc_weight_frame c w j hj
    have hw1_sub : ∀ s ∈ c.subtreesOf, w1 s.nid = weightOf w s :=
      fun s hs => hcs c (by simp) w hcnodup s hs
    have hw1_i : w1 i = w i := hw1_out i hic
    have hw1_c : w1 c.nid = weightOf w c := hw1_sub c (self_mem_subtreesOf c)
    set w2 := updW w1 i (w1 i + w1 c.nid) with hw2
    have hw2_i : w2 i = w i + weightOf w c := by
      simp [hw2, updW, hw1_i, hw1_c]
    have hw2_ne : ∀ j, j ≠ i → w2 j = w1 j := by
      intro j hj
      simp [hw2, updW, hj]
    have hw2_rest : ∀ j ∈ TreeNode.allIdsList rest, w2 j = w j := by
      intro j hj
      have hji : j ≠ i := fun h => hirest (h ▸ hj)
      have hjc : j ∉ c.allIds := fun h => hdisj j h hj
      rw [hw2_ne j hji, hw1_out j hjc]
    have hrestcons : (i :: TreeNode.allIdsList rest).Nodup := by
      refine List.nodup_cons.mpr ⟨hirest, hrestnodup⟩
    have ihres := ih (fun c hc => hcs c (by simp [hc])) w2 hrestcons
    have hunfold : calc_weight_children i (c :: rest) w
        = calc_weight_children i rest w2 := by
      simp only [calc_weight_children]
    refine ⟨?_, ?_, ?_⟩
    · rw [hunfold, ihres.1, hw2_i]
      rw [weightOfList_congr rest w2 w hw2_rest]
      simp only [weightOfList]
      omega
    · intro c' hc' s hs
      rcases List.mem_cons.mp hc' with rfl | hc'rest
      · -- s is a subtree of the already-processed child c
        have hsnid : s.nid ∈ c'.allIds := nid_mem_allIds hs
        have hsni : s.nid ≠ i := fun h => hic (h ▸ hsnid)
        have hsnrest : s.nid ∉ TreeNode.allIdsList rest := hdisj s.nid hsnid
        rw [hunfold, ihres.2.2 s.nid hsni hsnrest, hw2_ne s.nid hsni]
        exact hw1_sub s hs
      · -- s is a subtree of a still-unprocessed child
        rw [hunfold, ihres.2.1 c' hc'rest s hs]
        refine weightOf_congr s w2 w ?_
        intro j hj
        have hjrest : j ∈ TreeNode.allIdsList rest :=
          mem_allIdsList_of_mem hc'rest (allIds_subset_of_mem_subtreesOf c' s hs j hj)
        exact hw2_rest j hjrest
    · intro j hji hj
      simp only [TreeNode.allIdsList, List.mem_append] at hj
      push_neg at hj
      rw [hunfold, ihres.2.2 j hji hj.2, hw2_ne j hji, hw1_out j hj.1]

/-- Correctness of `calc_weight`: run from the root of a tree with pairwise distinct node
ids, assigns to every subtree's root the structural weight of that
subtree: its direct count plus the recursively summed weights of its
children. -/
theorem calc_weight_correct : ∀ (t : TreeNode) (w : Nat → Nat),
    t.allIds.Nodup → ∀ s ∈ t.subtreesOf, calc_weight t w s.nid = weightOf w s := by
  refine TreeNode.inductionOn _ ?_
  intro i cs ih w hnodup s hs
  have hspec := calc_weight_children_spec i cs (fun c hc => ih c hc) w
    (by simpa [TreeNode.allIds] using hnodup)
  simp only [calc_weight]
  simp only [TreeNode.subtreesOf, List.mem_cons] at hs
  rcases hs with rfl | hs
  · simpa [TreeNode.nid, weightOf] using hspec.1
  · obtain ⟨c, hc, hsc⟩ := (mem_subtreesOfList_iff s cs).mp hs
    exact hspec.2.1 c hc s hsc

/-- Inserting into a list permutes consing. -/
theorem perm_insertDescBy (w : Nat → Nat) (x : TreeNode) (l : List TreeNode) :
    (insertDescBy w x l).Perm (x :: l) := by
  induction l with
  | nil => simp [insertDescBy]
  | cons y ys ih =>
    simp only [insertDescBy]
    split
    · exact List.Perm.refl _
    · exact (ih.cons y).trans (List.Perm.swap x y ys)

/-- The stable descending sort is a permutation. -/
theorem perm_sortDescBy (w : Nat → Nat) (l : List TreeNode) :
    (sortDescBy w l).Perm l := by
  induction l with
  | nil => simp [sortDescBy]
  | cons x xs ih =>
    exact (perm_insertDescBy w x (sortDescBy w xs)).trans (ih.cons x)

/-- Inserting preserves the non-increasing-key invariant. -/
theorem pairwise_insertDescBy (w : Nat → Nat) (x : TreeNode) (l : List TreeNode)
    (hl : l.Pairwise (fun a b => w b.nid ≤ w a.nid)) :
    (insertDescBy w x l).Pairwise (fun a b => w b.nid ≤ w a.nid) := by
  induction l with
  | nil => simp [insertDescBy]
  | cons y ys ih =>
    rcases List.pairwise_cons.mp hl with ⟨hy, hys⟩
    simp only [insertDescBy]
    split
    · rename_i hcond
      refine List.pairwise_cons.mpr ⟨?_, hl⟩
      intro z hz
      rcases List.mem_cons.mp hz with rfl | hzys
      · exact hcond
      · exact le_trans (hy z hzys) hcond
    · rename_i hcond
      refine List.pairwise_cons.mpr ⟨?_, ih hys⟩
      intro z hz
      have hz' := (perm_insertDescBy w x ys).mem_iff.mp hz
      rcases List.mem_cons.mp hz' with rfl | hzys
      · omega
      · exact hy z hzys

/-- The output of `sortDescBy` has non-increasing keys. -/
theorem pairwise_sortDescBy (w : Nat → Nat) (l : List TreeNode) :
    (sortDescBy w l).Pairwise (fun a b => w b.nid ≤ w a.nid) := by
  induction l with
  | nil => simp [sortDescBy]
  | cons x xs ih => exact pairwise_insertDescBy w x (sortDescBy w xs) ih

/-- In a list sorted by non-increasing key, an element with a strictly
greater key splits the list before any element with a smaller key. -/
theorem sorted_split (w : Nat → Nat) : ∀ (l : List TreeNode),
    l.Pairwise (fun a b => w b.nid ≤ w a.nid) →
    ∀ x ∈ l, ∀ y ∈ l, w y.nid < w x.nid →
    ∃ l1 l2, l = l1 ++ x :: l2 ∧ y ∈ l2 := by
  intro l
  induction l with
  | nil =>
    intro _ x hx
    cases hx
  | cons a as ih =>
    intro hp x hx y hy hlt
    rcases List.pairwise_cons.mp hp with ⟨ha, has⟩
    rcases List.mem_cons.mp hx with rfl | hxas
    · have hyas : y ∈ as := by
        rcases List.mem_cons.mp hy with rfl | h
        · omega
        · exact h
      exact ⟨[], as, rfl, hyas⟩
    · have hyas : y ∈ as := by
        rcases List.mem_cons.mp hy with rfl | h
        · exact absurd (ha x hxas) (by omega)
        · exact h
      obtain ⟨l1, l2, heq, hyl2⟩ := ih has x hxas y hyas hlt
      exact ⟨a :: l1, l2, by simp [heq], hyl2⟩

/-- The children loop of `get_dfs_priority` only appends to the
accumulator (stated with the per-tree property as a hypothesis). -/
theorem get_dfs_children_append_of (w : Nat → Nat) (reqsOf : Nat → List Req) :
    ∀ (l : List TreeNode),
    (∀ c ∈ l, ∀ (q : List Req),
      get_dfs_priority c w reqsOf q = q ++ get_dfs_priority c w reqsOf []) →
    ∀ (q : List Req),
      get_dfs_children l w reqsOf q = q ++ get_dfs_children l w reqsOf [] := by
  intro l
  induction l with
  | nil =>
    intro _ q
    simp [get_dfs_children]
  | cons c rest ih =>
    intro hl q
    simp only [get_dfs_children]
    rw [ih (fun c hc => hl c (by simp [hc])) (get_dfs_priority c w reqsOf q),
      hl c (by simp) q,
      ih (fun c hc => hl c (by simp [hc])) (get_dfs_priority c w reqsOf [])]
    simp

/-- The walk `get_dfs_priority` only appends to the accumulator `q`. -/
theorem get_dfs_priority_append : ∀ (t : TreeNode) (w : Nat → Nat)
    (reqsOf : Nat → List Req) (q : List Req),
    get_dfs_priority t w reqsOf q = q ++ get_dfs_priority t w reqsOf [] := by
  refine TreeNode.inductionOn _ ?_
  intro i cs ih w reqsOf q
  simp only [get_dfs_priority]
  rw [get_dfs_children_append_of w reqsOf (sortDescBy w cs)
    (fun c hc q' => ih c ((perm_sortDescBy w cs).mem_iff.mp hc) w reqsOf q') q]
  simp

/-- The emission of a forest is the concatenation of the emissions of its
trees. -/
theorem get_dfs_children_join (w : Nat → Nat) (reqsOf : Nat → List Req) :
    ∀ (l : List TreeNode),
    get_dfs_children l w reqsOf []
      = (l.map (fun c => get_dfs_priority c w reqsOf [])).flatten := by
  intro l
  induction l with
  | nil => simp [get_dfs_children]
  | cons c rest ih =>
    simp only [get_dfs_children, List.map_cons, List.flatten_cons]
    rw [get_dfs_children_append_of w reqsOf rest
      (fun c _ q => get_dfs_priority_append c w reqsOf q)
      (get_dfs_priority c w reqsOf []), ih]

/-- The emission of a node: children blocks in descending weight order,
then the node's own requests. -/
theorem get_dfs_priority_eq (i : Nat) (cs : List TreeNode) (w : Nat → Nat)
    (reqsOf : Nat → List Req) :
    get_dfs_priority (TreeNode.mk i cs) w reqsOf []
      = ((sortDescBy w cs).map (fun c => get_dfs_priority c w reqsOf [])).flatten
        ++ reqsOf i := by
  simp only [get_dfs_priority]
  rw [get_dfs_children_join]

/-- The emission of any subtree is a contiguous block of the emission of
the whole tree. -/
theorem get_dfs_priority_infix (w : Nat → Nat) (reqsOf : Nat → List Req) :
    ∀ (t : TreeNode), ∀ s ∈ t.subtreesOf,
    ∃ u v, get_dfs_priority t w reqsOf []
      = u ++ get_dfs_priority s w reqsOf [] ++ v := by
  refine TreeNode.inductionOn _ ?_
  intro i cs ih s hs
  simp only [TreeNode.subtreesOf, List.mem_cons] at hs
  rcases hs with rfl | hs
  · exact ⟨[], [], by simp⟩
  · obtain ⟨c, hc, hsc⟩ := (mem_subtreesOfList_iff s cs).mp hs
    obtain ⟨u, v, huv⟩ := ih c hc s hsc
    have hcs : c ∈ sortDescBy w cs := (perm_sortDescBy w cs).mem_iff.mpr hc
    obtain ⟨l1, l2, hsplit⟩ := List.append_of_mem hcs
    refine ⟨(l1.map (fun c => get_dfs_priority c w reqsOf [])).flatten ++ u,
      v ++ (l2.map (fun c => get_dfs_priority c w reqsOf [])).flatten ++ reqsOf i, ?_⟩
    rw [get_dfs_priority_eq, hsplit]
    simp [huv]

/-- C5: under the dfs-weight policy (tree node ids pairwise distinct,
modelling Python object identities): (1) `calc_priority` assigns every tree
node a weight equal to the number of requests matched directly at it plus
the recursively summed weights of its children (`weightOf`); (2) the queue
is emitted by a depth-first walk that visits children in descending weight
order and appends a node's directly matched requests after all its
children; (3) consequently, for any two sibling subtrees, the subtree with
strictly greater aggregate weight is fully emitted (as a contiguous block)
before the other. -/
theorem C5_dfs_weight (root : TreeNode) (queue : List Req)
    (hnodup : root.allIds.Nodup) :
    (∀ s ∈ root.subtreesOf,
      calc_weight root (initial_weight queue) s.nid = weightOf (initial_weight queue) s) ∧
    (∀ s ∈ root.subtreesOf,
      get_dfs_priority s (calc_weight root (initial_weight queue)) (reqs_matched_at queue) []
        = ((sortDescBy (calc_weight root (initial_weight queue)) s.children).map
            (fun c => get_dfs_priority c (calc_weight root (initial_weight queue))
              (reqs_matched_at queue) [])).flatten
          ++ reqs_matched_at queue s.nid) ∧
    (∀ s ∈ root.subtreesOf, ∀ c1 ∈ s.children, ∀ c2 ∈ s.children,
      weightOf (initial_weight queue) c2 < weightOf (initial_weight queue) c1 →
      ∃ l m r, dfs_weight_order root queue
        = l ++ get_dfs_priority c1 (calc_weight root (initial_weight queue))
                (reqs_matched_at queue) []
          ++ m ++ get_dfs_priority c2 (calc_weight root (initial_weight queue))
                (reqs_matched_at queue) [] ++ r) := by
  refine ⟨calc_weight_correct root (initial_weight queue) hnodup, ?_, ?_⟩
  · intro s hs
    obtain ⟨i, cs⟩ := s
    simp only [TreeNode.children, TreeNode.nid]
    exact get_dfs_priority_eq i cs (calc_weight root (initial_weight queue))
      (reqs_matched_at queue)
  · intro s hs c1 h1 c2 h2 hlt
    obtain ⟨i, cs⟩ := s
    simp only [TreeNode.children] at h1 h2
    have hc1sub : c1 ∈ root.subtreesOf :=
      subtreesOf_trans root (TreeNode.mk i cs) hs c1
        (children_mem_subtreesOf (by simpa [TreeNode.children] using h1))
    have hc2sub : c2 ∈ root.subtreesOf :=
      subtreesOf_trans root (TreeNode.mk i cs) hs c2
        (children_mem_subtreesOf (by simpa [TreeNode.children] using h2))
    have hw1 := calc_weight_correct root (initial_weight queue) hnodup c1 hc1sub
    have hw2 := calc_weight_correct root (initial_weight queue) hnodup c2 hc2sub
    have hlt' : calc_weight root (initial_weight queue) c2.nid
        < calc_weight root (initial_weight queue) c1.nid := by
      rw [hw1, hw2]
      exact hlt
    have hpair := pairwise_sortDescBy (calc_weight root (initial_weight queue)) cs
    have hm1 : c1 ∈ sortDescBy (calc_weight root (initial_weight queue)) cs :=
      (perm_sortDescBy _ cs).mem_iff.mpr h1
    have hm2 : c2 ∈ sortDescBy (calc_weight root (initial_weight queue)) cs :=
      (perm_sortDescBy _ cs).mem_iff.mpr h2
    obtain ⟨l1, l2, hsplit, hc2l2⟩ :=
      sorted_split (calc_weight root (initial_weight queue)) _ hpair c1 hm1 c2 hm2 hlt'
    obtain ⟨m1, m2, hsplit2⟩ := List.append_of_mem hc2l2
    obtain ⟨u, v, huv⟩ := get_dfs_priority_infix (calc_weight root (initial_weight queue))
      (reqs_matched_at queue) root (TreeNode.mk i cs) hs
    refine ⟨u ++ (l1.map (fun c => get_dfs_priority c
        (calc_weight root (initial_weight queue)) (reqs_matched_at queue) [])).flatten,
      (m1.map (fun c => get_dfs_priority c
        (calc_weight root (initial_weight queue)) (reqs_matched_at queue) [])).flatten,
      (m2.map (fun c => get_dfs_priority c
        (calc_weight root (initial_weight queue)) (reqs_matched_at queue) [])).flatten
        ++ reqs_matched_at queue i ++ v, ?_⟩
    simp only [dfs_weight_order]
    rw [huv, get_dfs_priority_eq, hsplit, hsplit2]
    simp [List.append_assoc]

/-- C5 witness: the example tree (ids 0-3, pairwise distinct) with one
request at each of the nodes 1, 2 and 3 satisfies all three parts of the
dfs-weight theorem. -/
theorem C5_dfs_weight_witness :
    exTree.allIds.Nodup ∧
    ((∀ s ∈ exTree.subtreesOf,
      calc_weight exTree (initial_weight exQueue) s.nid
        = weightOf (initial_weight exQueue) s) ∧
    (∀ s ∈ exTree.subtreesOf,
      get_dfs_priority s (calc_weight exTree (initial_weight exQueue)) (reqs_matched_at exQueue) []
        = ((sortDescBy (calc_weight exTree (initial_weight exQueue)) s.children).map
            (fun c => get_dfs_priority c (calc_weight exTree (initial_weight exQueue))
              (reqs_matched_at exQueue) [])).flatten
          ++ reqs_matched_at exQueue s.nid) ∧
    (∀ s ∈ exTree.subtreesOf, ∀ c1 ∈ s.children, ∀ c2 ∈ s.children,
      weightOf (initial_weight exQueue) c2 < weightOf (initial_weight exQueue) c1 →
      ∃ l m r, dfs_weight_order exTree exQueue
        = l ++ get_dfs_priority c1 (calc_weight exTree (initial_weight exQueue))
                (reqs_matched_at exQueue) []
          ++ m ++ get_dfs_priority c2 (calc_weight exTree (initial_weight exQueue))
                (reqs_matched_at exQueue) [] ++ r)) :=
  ⟨by decide, C5_dfs_weight exTree exQueue (by decide)⟩
